import Mathlib

/-!
A shallow embedding of the repository-resolution and cache subsystem of the
`release-maker` repository (crates `ghet` and `librmaker`), together with
theorems settling the specification's claims about it.

The embedding models:
 - `ghet/src/cache.rs` (`Cache` and its path derivations, directory listing,
   existence check and `clear`),
 - `ghet/src/git.rs` (the `Repository` capability implemented for
   `git2::Repository`, the uninhabited stub handle `private::Void`, the
   `Git` engines `Git2` and `GitBin`),
 - `ghet/src/lib.rs` (the duplicated wrapper `Repository` type),
 - the resolver `open_repository` described in the specification (not present
   under `src/`).

Rust `Result` values are modelled with `Except` / the `Outcome` type below;
Rust panics (`unwrap()` on `None`, `unimplemented!()`, `todo!()`) are modelled
with the distinguished `Outcome.panic` constructor, since a panic is an abort
of the process and not a returnable error value. Filesystem paths are modelled
as lists of components; the filesystem itself as the list of paths of its
entries. The libgit2 revision walk with `Sort::TOPOLOGICAL` is modelled as a
reverse post-order depth-first traversal of the parent graph, which is a
topological order of the commit DAG.
-/

namespace Ghet

/-- A filesystem path, as its list of components (what Rust's `Path::components` yields). -/
abbrev Path := List String

/-- The result of a Rust call that may return a value, return an `Err`, or panic.
`panic` models process aborts (`unwrap()` on `None`, `unimplemented!()`, `todo!()`);
it is distinct from `err`, which models a returned `Result::Err` value. -/
inductive Outcome (α : Type) where
  | ok : α → Outcome α
  | err : String → Outcome α
  | panic : String → Outcome α
  deriving DecidableEq

/-- The message of the panic raised by `Option::unwrap()` on `None`. -/
def unwrapMsg : String := "called Option::unwrap() on a None value"

/-- Association-list lookup by string key, first match wins. -/
def lookupStr {β : Type} (k : String) : List (String × β) → Option β
  | [] => none
  | (k2, v) :: rest => if k = k2 then some v else lookupStr k rest

/-- Split a list of characters on a separator character. Mirrors Rust's
`str::split`: it always yields at least one (possibly empty) segment. -/
def splitChars (sep : Char) : List Char → List (List Char)
  | [] => [[]]
  | c :: rest =>
    let r := splitChars sep rest
    if c = sep then [] :: r
    else
      match r with
      | [] => [[c]]
      | seg :: segs => (c :: seg) :: segs

/-- Rust's `repo_url.rsplit('/').next()`: the final `/`-delimited segment of the
string (empty when the string ends in `/` or is empty). `rsplit` always yields
at least one segment, so this is never `none`. -/
def rsplitNext (s : String) : Option String :=
  ((splitChars '/' s.data).getLast?).map String.mk

/-! ## Cache (`ghet/src/cache.rs`) -/

/-- The `Cache` structure: the user cache directory given by the system, and
the name of the program the instance belongs to. -/
structure Cache where
  path : Path
  program_name : String
  deriving DecidableEq

/-- `Cache::new`: resolves the OS cache root (`BaseDirs::new()`, modelled as an
`Option Path` supplied by the host); fails when the system has no valid home
directory. -/
def Cache.new (cacheRoot : Option Path) (program_name : String) : Except String Cache :=
  match cacheRoot with
  | none => .error "System did not have a valid home directory"
  | some root => .ok { path := root, program_name := program_name }

/-- `Cache::program_path`: the program's directory inside the user cache directory. -/
def Cache.program_path (c : Cache) : Path :=
  c.path ++ [c.program_name]

/-- `Cache::repository_path`: the path to a repository called `repo_name` in the
cache directory. -/
def Cache.repository_path (c : Cache) (repo_name : String) : Path :=
  c.program_path ++ [repo_name]

/-- `Cache::repository_path_url`: derives the repository name from the URL as
`repo_url.rsplit('/').next()` and joins it onto the program path; the
`context(...)` error branch fires only when `rsplit` yields nothing. -/
def Cache.repository_path_url (c : Cache) (repo_url : String) : Except String Path :=
  match rsplitNext repo_url with
  | none => .error "Could not find the repository name"
  | some name => .ok (c.repository_path name)

/-- Boolean test that path `p` is `q` itself or an ancestor directory of `q`
(i.e. `p` is a component-wise prefix of `q`). Used by the filesystem model. -/
def isUnder (p q : Path) : Bool :=
  match p, q with
  | [], _ => true
  | _ :: _, [] => false
  | a :: asx, b :: bsx => a = b && isUnder asx bsx

/-- A filesystem, modelled as the list of paths of its existing entries.
A path exists when it is an entry or an ancestor directory of one. -/
def existsPath (fs : List Path) (p : Path) : Bool :=
  fs.any (fun q => isUnder p q)

/-- `Cache::repository_exists`: real-time filesystem existence check of
`repository_path(name)`. -/
def Cache.repository_exists (c : Cache) (fs : List Path) (name : String) : Bool :=
  existsPath fs (c.repository_path name)

/-- `std::fs::remove_dir_all`: recursively removes the directory at `p`; fails
(`NotFound`) when it does not exist. -/
def removeDirAll (fs : List Path) (p : Path) : Except String (List Path) :=
  if existsPath fs p then .ok (fs.filter (fun q => !(isUnder p q)))
  else .error "No such file or directory"

/-- `Cache::clear`: recursively removes `program_path()`. -/
def Cache.clear (c : Cache) (fs : List Path) : Except String (List Path) :=
  removeDirAll fs c.program_path

/-- `Cache::repositories`: `read_dir(program_path())?` followed by
`flat_map(|entry| entry.map(|e| e.path()))`. The argument models the outcome of
`read_dir`: either an error opening the directory, or the list of per-entry
results, each of which may individually fail. -/
def Cache.repositories (rd : Except String (List (Except String Path))) :
    Except String (List Path) :=
  match rd with
  | .error e => .error e
  | .ok entries =>
    .ok (entries.filterMap (fun ent =>
      match ent with
      | .ok p => some p
      | .error _ => none))

/-! ## Git data model (`ghet/src/git.rs`) -/

/-- A Git user (`User` in `git.rs` and `lib.rs`): name and email, both required. -/
structure GitUser where
  name : String
  email : String
  deriving DecidableEq

/-- A Git commit as produced by the walk (`Commit` in `git.rs` and `lib.rs`). -/
structure Commit where
  hash : String
  author : GitUser
  committer : GitUser
  message : String
  deriving DecidableEq

/-- The data stored in a commit object of the underlying repository: parent
object ids, the four identity fields as libgit2 exposes them (each may be
absent), and the raw commit message. -/
structure ObjData where
  parents : List String
  authorName : Option String
  authorEmail : Option String
  committerName : Option String
  committerEmail : Option String
  message : String
  deriving DecidableEq

/-- The observable state of an opened repository: its references (a symbolic
reference has no direct target oid), its configured remotes (a remote may have
no URL set), and its object database keyed by oid. -/
structure RepoState where
  refs : List (String × Option String)
  remotes : List (String × Option String)
  objects : List (String × ObjData)

/-- libgit2's `summary()`: the first line of the commit message, `none` when
the message is empty. -/
def summaryOf (msg : String) : Option String :=
  if msg = "" then none
  else some (String.mk ((splitChars '\n' msg.data).headD []))

/-- The revision walk of libgit2 with `Sort::TOPOLOGICAL`, modelled as a
depth-first traversal of the parent graph that records each node after all of
its parents (post-order). `work` is the stack of nodes still to process at the
current level, `seen` the post-order list built so far, `gray` the chain of
nodes whose parents are currently being traversed; encountering a `gray` node
again, or running out of `fuel`, can happen only on a cyclic object graph,
which real Git hashes exclude, and is reported as a walk error. An oid whose
object is missing from the database makes the walk fail, as the walk must read
the object to follow its parents. -/
def dfsGo (objs : List (String × ObjData)) : Nat → List String → List String → List String →
    Except String (List String)
  | _, [], seen, _ => .ok seen
  | 0, _ :: _, _, _ => .error "revwalk: out of fuel"
  | f + 1, n :: rest, seen, gray =>
    if n ∈ seen then dfsGo objs f rest seen gray
    else if n ∈ gray then .error "revwalk: cycle detected"
    else
      match lookupStr n objs with
      | none => .error "revwalk: object not found"
      | some d =>
        match dfsGo objs f d.parents seen (n :: gray) with
        | .error e => .error e
        | .ok seen2 => dfsGo objs f rest (seen2 ++ [n]) gray

/-- Enough fuel for `dfsGo` on any acyclic object graph: every work item ever
processed is either the root or a parent slot of an object expanded at most
once. -/
def fuelFor (objs : List (String × ObjData)) : Nat :=
  2 + objs.length + (objs.map (fun kv => kv.2.parents.length)).sum

/-- The full revision walk pushed at `root`: children precede their parents in
the returned sequence (reverse post-order, a topological order of the DAG). -/
def revwalk (objs : List (String × ObjData)) (root : String) : Except String (List String) :=
  match dfsGo objs (fuelFor objs) [root] [] [] with
  | .error e => .error e
  | .ok po => .ok po.reverse

/-! ## The `Repository` capability implemented for `git2::Repository`
(`impl Repository for Git2Repository` in `ghet/src/git.rs`) -/

namespace Git

/-- The body of the `for oid in revwalk` loop for a single oid:
`self.find_commit(oid?)?` followed by field extraction, where every identity
access and the summary go through `Option::unwrap()` (a panic when absent). -/
def extractOne (objs : List (String × ObjData)) (oid : String) : Outcome Commit :=
  match lookupStr oid objs with
  | none => .err "object not found"
  | some d =>
    match d.authorName with
    | none => .panic unwrapMsg
    | some an =>
      match d.authorEmail with
      | none => .panic unwrapMsg
      | some ae =>
        match d.committerName with
        | none => .panic unwrapMsg
        | some cn =>
          match d.committerEmail with
          | none => .panic unwrapMsg
          | some ce =>
            match summaryOf d.message with
            | none => .panic unwrapMsg
            | some s =>
              .ok { hash := oid, author := ⟨an, ae⟩, committer := ⟨cn, ce⟩, message := s }

/-- The `for` loop of `commits`: extract every walked oid in order; the first
failure aborts the whole loop. -/
def extractAll (objs : List (String × ObjData)) : List String → Outcome (List Commit)
  | [] => .ok []
  | oid :: rest =>
    match extractOne objs oid with
    | .err e => .err e
    | .panic m => .panic m
    | .ok c =>
      match extractAll objs rest with
      | .err e => .err e
      | .panic m => .panic m
      | .ok cs => .ok (c :: cs)

/-- `Repository::commits` for `Git2Repository`: find the remote-tracking
reference `refs/remotes/origin/<branch>` (`?`, an error), unwrap its target
(a panic when the reference is symbolic), walk from it topologically, and
extract every visited commit. -/
def commits (g : RepoState) (branch : String) : Outcome (List Commit) :=
  match lookupStr (String.append "refs/remotes/origin/" branch) g.refs with
  | none => .err "reference not found"
  | some none => .panic unwrapMsg
  | some (some root) =>
    match revwalk g.objects root with
    | .error e => .err e
    | .ok oids => extractAll g.objects oids

/-- `Repository::url` for `Git2Repository`:
`self.find_remote("origin")?.url().unwrap().to_string()` — a missing remote is
a returned error, a remote without URL is an `unwrap` panic. -/
def url (g : RepoState) : Outcome String :=
  match lookupStr "origin" g.remotes with
  | none => .err "remote origin not found"
  | some none => .panic unwrapMsg
  | some (some u) => .ok u

end Git

/-! ## The wrapper `Repository` type of `ghet/src/lib.rs`, whose `url` and
`commits` bodies duplicate the ones in `git.rs` verbatim (both delegate to the
same libgit2 engine, modelled by the shared `RepoState`/`revwalk`). -/

namespace LibRepo

/-- Loop body of `lib.rs`'s `commits`, a verbatim duplicate of the one in `git.rs`. -/
def extractOne (objs : List (String × ObjData)) (oid : String) : Outcome Commit :=
  match lookupStr oid objs with
  | none => .err "object not found"
  | some d =>
    match d.authorName with
    | none => .panic unwrapMsg
    | some an =>
      match d.authorEmail with
      | none => .panic unwrapMsg
      | some ae =>
        match d.committerName with
        | none => .panic unwrapMsg
        | some cn =>
          match d.committerEmail with
          | none => .panic unwrapMsg
          | some ce =>
            match summaryOf d.message with
            | none => .panic unwrapMsg
            | some s =>
              .ok { hash := oid, author := ⟨an, ae⟩, committer := ⟨cn, ce⟩, message := s }

/-- The `for` loop of `lib.rs`'s `commits`. -/
def extractAll (objs : List (String × ObjData)) : List String → Outcome (List Commit)
  | [] => .ok []
  | oid :: rest =>
    match extractOne objs oid with
    | .err e => .err e
    | .panic m => .panic m
    | .ok c =>
      match extractAll objs rest with
      | .err e => .err e
      | .panic m => .panic m
      | .ok cs => .ok (c :: cs)

/-- `Repository::commits` of `ghet/src/lib.rs`. -/
def commits (g : RepoState) (branch : String) : Outcome (List Commit) :=
  match lookupStr (String.append "refs/remotes/origin/" branch) g.refs with
  | none => .err "reference not found"
  | some none => .panic unwrapMsg
  | some (some root) =>
    match revwalk g.objects root with
    | .error e => .err e
    | .ok oids => extractAll g.objects oids

/-- `Repository::url` of `ghet/src/lib.rs`. -/
def url (g : RepoState) : Outcome String :=
  match lookupStr "origin" g.remotes with
  | none => .err "remote origin not found"
  | some none => .panic unwrapMsg
  | some (some u) => .ok u

end LibRepo

/-! ## The stub engine (`impl Repository for private::Void`, `impl Git for GitBin`) -/

/-- `private::Void`: an uninhabited repository handle type (an empty Rust enum). -/
inductive VoidRepo : Type

/-- `Repository::url` for `private::Void`: the body is `unimplemented!()`, a panic. -/
def voidUrl (_ : VoidRepo) : Outcome String :=
  .panic "not implemented"

/-- `Repository::commits` for `private::Void`: the body is `unimplemented!()`, a panic. -/
def voidCommits (_ : VoidRepo) (_branch : String) : Outcome (List Commit) :=
  .panic "not implemented"

/-- `Git::clone` for `GitBin`: the body is `todo!()`, a panic. -/
def gitBinClone (_repo_url : String) (_destination : Path) : Outcome VoidRepo :=
  .panic "not yet implemented"

/-- `Git::open` for `GitBin`: the body is `todo!()`, a panic. -/
def gitBinOpen (_repo_path : Path) : Outcome VoidRepo :=
  .panic "not yet implemented"

/-! ## The resolver (`open_repository`, specification section 4.3) -/

/-- A pluggable git engine: the two capabilities `clone` and `open`, each
producing a repository handle or an engine error. -/
structure Engine (H : Type) where
  cloneRepo : String → Path → Except String H
  openRepo : Path → Except String H

/-- A record of one call made to the engine, used to state which capabilities a
resolution run invokes and with which arguments. -/
inductive EngineCall where
  | openCall : Path → EngineCall
  | cloneCall : String → Path → EngineCall
  deriving DecidableEq

/-- A reference string interpreted as a filesystem path (component split). -/
def refAsPath (r : String) : Path :=
  (splitChars '/' r.data).map String.mk

/-- `pre` is a textual prefix of `s` (Rust's `str::starts_with`). -/
def strStarts (pre s : String) : Bool :=
  pre.data.isPrefixOf s.data

/-- Modelled from the spec: the resolver `open_repository` (specification
section 4.3) is not present under `src/`; this definition follows the
specification's algorithm word for word. Given an engine, a cache and a
reference string: a reference starting with `http://` or `https://` is remote —
derive the cache path from the URL (propagating a derivation error), try
`open(cache_path)` and return its handle on success, otherwise return the
result of `clone(reference, cache_path)` as-is; any other reference is first
tried as `open(reference)` and, only if that fails, as
`open(cache.repository_path(reference))`, whose result is returned as-is.
The second component records the engine calls made, in order. -/
def open_repository {H : Type} (eng : Engine H) (c : Cache) (reference : String) :
    Except String H × List EngineCall :=
  if strStarts "http://" reference || strStarts "https://" reference then
    match c.repository_path_url reference with
    | .error e => (.error e, [])
    | .ok cachePath =>
      match eng.openRepo cachePath with
      | .ok h => (.ok h, [.openCall cachePath])
      | .error _ =>
        (eng.cloneRepo reference cachePath,
         [.openCall cachePath, .cloneCall reference cachePath])
  else
    match eng.openRepo (refAsPath reference) with
    | .ok h => (.ok h, [.openCall (refAsPath reference)])
    | .error _ =>
      (eng.openRepo (c.repository_path reference),
       [.openCall (refAsPath reference), .openCall (c.repository_path reference)])

/-! ## Ancestry in the commit DAG, and the invariants of the walk -/

/-- `parentRel objs x p`: `p` is a direct parent of commit `x` in the object
database. -/
def parentRel (objs : List (String × ObjData)) (x p : String) : Prop :=
  ∃ d, lookupStr x objs = some d ∧ p ∈ d.parents

/-- `Ancestor objs x y`: `y` is a proper ancestor of `x` (reachable from `x`
through one or more parent edges). -/
def Ancestor (objs : List (String × ObjData)) : String → String → Prop :=
  Relation.TransGen (parentRel objs)

/-- A list of oids is parent-closed and parent-ordered: every parent of an
element occurs at a strictly earlier position. This is the shape of the
post-order list built by `dfsGo`. -/
def Good (objs : List (String × ObjData)) (l : List String) : Prop :=
  ∀ (i : Nat) (hi : i < l.length) (p : String), parentRel objs l[i] p →
    ∃ (j : Nat) (hj : j < l.length), j < i ∧ l[j] = p

/-- Precondition of `dfsGo` on its accumulator `seen` and its in-progress chain
`gray`. -/
structure Pre (objs : List (String × ObjData)) (seen gray : List String) : Prop where
  nodup : seen.Nodup
  good : Good objs seen
  grayDis : ∀ x ∈ gray, x ∉ seen
  keys : ∀ x ∈ seen, (lookupStr x objs).isSome = true

/-- Postcondition of a successful `dfsGo`: the result extends `seen` and itself
satisfies the precondition. -/
structure Post (objs : List (String × ObjData)) (seen gray r : List String) : Prop where
  ext : ∃ t, r = seen ++ t
  pre : Pre objs r gray

/-! ## Concrete repository states used as witnesses and counterexamples -/

/-- A commit object with every field present, parameterised by parents and message. -/
def fullObj (parents : List String) (msg : String) : ObjData :=
  { parents := parents, authorName := some "An Author", authorEmail := some "author@example.com",
    committerName := some "A Committer", committerEmail := some "committer@example.com",
    message := msg }

/-- A single-commit repository whose commit lacks the author name. -/
def stNoName : RepoState :=
  { refs := [("refs/remotes/origin/master", some "a")], remotes := [],
    objects := [("a", { fullObj [] "msg" with authorName := none })] }

/-- A repository whose head commit references a parent object that is missing
from the object database (an unreadable object). -/
def stBadObj : RepoState :=
  { refs := [("refs/remotes/origin/master", some "a")], remotes := [],
    objects := [("a", fullObj ["b"] "msg")] }

/-- A repository with a remote named `origin` that has no URL set. -/
def stNoUrl : RepoState :=
  { refs := [], remotes := [("origin", none)], objects := [] }

/-- A repository with no remote named `origin`. -/
def stNoOrigin : RepoState :=
  { refs := [], remotes := [("upstream", some "https://example.com/u/r")], objects := [] }

/-- A four-commit diamond: `r` has parents `a` and `b`, which both have parent `c`. -/
def stDiamond : RepoState :=
  { refs := [("refs/remotes/origin/master", some "r")], remotes := [],
    objects := [("r", fullObj ["a", "b"] "tip"), ("a", fullObj ["c"] "left"),
                ("b", fullObj ["c"] "right"), ("c", fullObj [] "base")] }

/-- A concrete cache instance used by witnesses. -/
def cacheEx : Cache :=
  { path := ["home", "user", ".cache"], program_name := "ghet" }

/-- A concrete filesystem holding two cached repositories of `cacheEx`. -/
def fsEx : List Path :=
  [["home", "user", ".cache", "ghet", "repo1", "HEAD"],
   ["home", "user", ".cache", "ghet", "repo2", "HEAD"],
   ["home", "user", "documents", "notes.txt"]]

/-- An engine whose `open` always fails and whose `clone` always succeeds,
used to witness the clone leg of the resolver. -/
def engCloneOnly : Engine Nat :=
  { cloneRepo := fun _ _ => .ok 7, openRepo := fun _ => .error "open failed" }

/-- An engine whose `open` always succeeds, used to witness the no-clone leg of
the resolver. -/
def engOpenOnly : Engine Nat :=
  { cloneRepo := fun _ _ => .error "network down", openRepo := fun _ => .ok 3 }

/-- The commit list produced by walking `stDiamond` from `refs/remotes/origin/master`. -/
def diamondList : List Commit :=
  [⟨"r", ⟨"An Author", "author@example.com"⟩, ⟨"A Committer", "committer@example.com"⟩, "tip"⟩,
   ⟨"b", ⟨"An Author", "author@example.com"⟩, ⟨"A Committer", "committer@example.com"⟩, "right"⟩,
   ⟨"a", ⟨"An Author", "author@example.com"⟩, ⟨"A Committer", "committer@example.com"⟩, "left"⟩,
   ⟨"c", ⟨"An Author", "author@example.com"⟩, ⟨"A Committer", "committer@example.com"⟩, "base"⟩]

/-!
# Theorems

Helper lemmas first, then one theorem (plus witness or counterexample) per
claim of the specification.
-/

/-- `splitChars` never returns an empty list of segments. -/
theorem splitChars_ne_nil (sep : Char) (l : List Char) : splitChars sep l ≠ [] := by
  cases l with
  | nil => simp [splitChars]
  | cons c rest =>
    simp only [splitChars]
    split
    · simp
    · split
      · simp
      · simp

/-- `rsplitNext` always returns a segment: the error branch guarded by it is
unreachable. -/
theorem rsplitNext_isSome (s : String) : ∃ n, rsplitNext s = some n := by
  unfold rsplitNext
  rcases h : (splitChars '/' s.data).getLast? with _ | seg
  · exact absurd (List.getLast?_eq_none_iff.mp h) (splitChars_ne_nil '/' s.data)
  · exact ⟨String.mk seg, rfl⟩

theorem isUnder_append (p t : Path) : isUnder p (p ++ t) = true := by
  induction p with
  | nil => rfl
  | cons a asx ih => simp [isUnder, ih]

theorem isUnder_trans {p q r : Path} (h1 : isUnder p q = true) (h2 : isUnder q r = true) :
    isUnder p r = true := by
  induction p generalizing q r with
  | nil => rfl
  | cons a asx ih =>
    cases q with
    | nil => simp [isUnder] at h1
    | cons b bsx =>
      cases r with
      | nil => simp [isUnder] at h2
      | cons c csx =>
        simp only [isUnder, Bool.and_eq_true, decide_eq_true_eq] at h1 h2 ⊢
        exact ⟨h1.1.trans h2.1, ih h1.2 h2.2⟩

/-- Appending a node whose parents are all already present preserves the
parent-ordering invariant. -/
theorem good_append {objs : List (String × ObjData)} {l : List String} {n : String}
    {d : ObjData} (hg : Good objs l) (hl : lookupStr n objs = some d)
    (hp : ∀ p ∈ d.parents, p ∈ l) : Good objs (l ++ [n]) := by
  intro i hi p hpar
  rcases Nat.lt_or_ge i l.length with hil | hge
  · rw [List.getElem_append_left hil] at hpar
    obtain ⟨j, hj, hji, hjp⟩ := hg i hil p hpar
    refine ⟨j, ?_, hji, ?_⟩
    · simp only [List.length_append, List.length_singleton]; omega
    · rw [List.getElem_append_left hj]
      exact hjp
  · have hie : i = l.length := by
      simp only [List.length_append, List.length_singleton] at hi; omega
    subst hie
    rw [List.getElem_append_right hge] at hpar
    simp only [Nat.sub_self, List.getElem_cons_zero] at hpar
    obtain ⟨d2, hd2, hpd2⟩ := hpar
    rw [hl] at hd2
    injection hd2 with hdd
    subst hdd
    obtain ⟨j, hj, hjp⟩ := List.mem_iff_getElem.mp (hp p hpd2)
    refine ⟨j, ?_, hj, ?_⟩
    · simp only [List.length_append, List.length_singleton]; omega
    · rw [List.getElem_append_left hj]
      exact hjp

/-- Main invariant of the walk: a successful `dfsGo` from a well-formed
accumulator returns a parent-closed, parent-ordered, duplicate-free extension
of it that contains every node of the work list. -/
theorem dfsGo_spec (objs : List (String × ObjData)) :
    ∀ (fuel : Nat) (work seen gray r : List String),
      Pre objs seen gray → dfsGo objs fuel work seen gray = .ok r →
      Post objs seen gray r ∧ ∀ p ∈ work, p ∈ r := by
  intro fuel
  induction fuel with
  | zero =>
    intro work seen gray r hpre heq
    cases work with
    | nil =>
      simp only [dfsGo] at heq
      injection heq with h
      subst h
      exact ⟨⟨⟨[], by simp⟩, hpre⟩, by simp⟩
    | cons n rest =>
      simp only [dfsGo] at heq
      exact Except.noConfusion heq
  | succ f ih =>
    intro work seen gray r hpre heq
    cases work with
    | nil =>
      simp only [dfsGo] at heq
      injection heq with h
      subst h
      exact ⟨⟨⟨[], by simp⟩, hpre⟩, by simp⟩
    | cons n rest =>
      simp only [dfsGo] at heq
      by_cases hseen : n ∈ seen
      · rw [if_pos hseen] at heq
        obtain ⟨hpost, hsub⟩ := ih rest seen gray r hpre heq
        refine ⟨hpost, ?_⟩
        intro p hp
        rcases List.mem_cons.mp hp with rfl | hp2
        · obtain ⟨t, ht⟩ := hpost.ext
          rw [ht]
          exact List.mem_append_left _ hseen
        · exact hsub p hp2
      · rw [if_neg hseen] at heq
        by_cases hgray : n ∈ gray
        · rw [if_pos hgray] at heq
          exact Except.noConfusion heq
        · rw [if_neg hgray] at heq
          cases hlk : lookupStr n objs with
          | none =>
            simp only [hlk] at heq
            exact Except.noConfusion heq
          | some d =>
            simp only [hlk] at heq
            cases hrec : dfsGo objs f d.parents seen (n :: gray) with
            | error e =>
              simp only [hrec] at heq
              exact Except.noConfusion heq
            | ok s2 =>
              simp only [hrec] at heq
              have hpre1 : Pre objs seen (n :: gray) := by
                refine ⟨hpre.nodup, hpre.good, ?_, hpre.keys⟩
                intro x hx
                rcases List.mem_cons.mp hx with rfl | hx2
                · exact hseen
                · exact hpre.grayDis x hx2
              obtain ⟨hpost1, hsub1⟩ := ih d.parents seen (n :: gray) s2 hpre1 hrec
              obtain ⟨t1, ht1⟩ := hpost1.ext
              have hns2 : n ∉ s2 := hpost1.pre.grayDis n (List.mem_cons_self n gray)
              have hpre2 : Pre objs (s2 ++ [n]) gray := by
                refine ⟨?_, ?_, ?_, ?_⟩
                · rw [List.nodup_append]
                  refine ⟨hpost1.pre.nodup, List.nodup_singleton n, ?_⟩
                  intro a ha hb
                  rcases List.mem_singleton.mp hb with rfl
                  exact hns2 ha
                · exact good_append hpost1.pre.good hlk hsub1
                · intro x hx
                  have hx2 := hpost1.pre.grayDis x (List.mem_cons_of_mem n hx)
                  simp only [List.mem_append, List.mem_singleton]
                  rintro (h1 | rfl)
                  · exact hx2 h1
                  · exact hgray hx
                · intro x hx
                  rcases List.mem_append.mp hx with h1 | h1
                  · exact hpost1.pre.keys x h1
                  · rcases List.mem_singleton.mp h1 with rfl
                    rw [hlk]
                    rfl
              obtain ⟨hpost2, hsub2⟩ := ih rest (s2 ++ [n]) gray r hpre2 heq
              obtain ⟨t2, ht2⟩ := hpost2.ext
              constructor
              · refine ⟨⟨t1 ++ [n] ++ t2, ?_⟩, hpost2.pre⟩
                rw [ht2, ht1]
                simp [List.append_assoc]
              · intro p hp
                rcases List.mem_cons.mp hp with rfl | hp2
                · rw [ht2]
                  exact List.mem_append_left _ (List.mem_append_right _ (List.mem_singleton_self p))
                · exact hsub2 p hp2

/-- In a parent-ordered list, every proper ancestor of an element also occurs,
at a strictly earlier position. -/
theorem good_ancestor {objs : List (String × ObjData)} {l : List String} (hg : Good objs l)
    (i : Nat) (hi : i < l.length) (y : String) (hanc : Ancestor objs l[i] y) :
    ∃ (j : Nat) (hj : j < l.length), j < i ∧ l[j] = y := by
  induction hanc with
  | single h => exact hg i hi _ h
  | tail hab hbc ih =>
    obtain ⟨j, hj, hji, hjy⟩ := ih
    rw [← hjy] at hbc
    obtain ⟨k, hk, hkj, hkc⟩ := hg j hj _ hbc
    exact ⟨k, hk, Nat.lt_trans hkj hji, hkc⟩

/-- A successful `revwalk` is the reverse of a duplicate-free, parent-ordered
post-order list whose every element has a readable object. -/
theorem revwalk_ok_props {objs : List (String × ObjData)} {root : String} {oids : List String}
    (h : revwalk objs root = .ok oids) :
    ∃ po, oids = po.reverse ∧ po.Nodup ∧ Good objs po ∧
      ∀ x ∈ po, (lookupStr x objs).isSome = true := by
  unfold revwalk at h
  cases hd : dfsGo objs (fuelFor objs) [root] [] [] with
  | error e =>
    simp only [hd] at h
    exact Except.noConfusion h
  | ok po =>
    simp only [hd] at h
    injection h with h2
    subst h2
    have hpre : Pre objs [] [] := by
      refine ⟨List.nodup_nil, ?_, ?_, ?_⟩
      · intro i hi p hp
        exact absurd hi (by simp)
      · intro x hx
        exact absurd hx (List.not_mem_nil x)
      · intro x hx
        exact absurd hx (List.not_mem_nil x)
    obtain ⟨hpost, _⟩ := dfsGo_spec objs (fuelFor objs) [root] [] [] po hpre hd
    exact ⟨po, rfl, hpost.pre.nodup, hpost.pre.good, hpost.pre.keys⟩

/-- A successful extraction yields the full extracted fields of the object. -/
theorem extractOne_ok_spec (objs : List (String × ObjData)) (oid : String) (c : Commit)
    (h : Git.extractOne objs oid = .ok c) :
    c.hash = oid ∧ ∃ d, lookupStr oid objs = some d ∧
      d.authorName = some c.author.name ∧ d.authorEmail = some c.author.email ∧
      d.committerName = some c.committer.name ∧ d.committerEmail = some c.committer.email ∧
      summaryOf d.message = some c.message := by
  unfold Git.extractOne at h
  cases hl : lookupStr oid objs with
  | none =>
    simp only [hl] at h
    exact Outcome.noConfusion h
  | some d =>
    simp only [hl] at h
    cases han : d.authorName with
    | none =>
      simp only [han] at h
      exact Outcome.noConfusion h
    | some an =>
      simp only [han] at h
      cases hae : d.authorEmail with
      | none =>
        simp only [hae] at h
        exact Outcome.noConfusion h
      | some ae =>
        simp only [hae] at h
        cases hcn : d.committerName with
        | none =>
          simp only [hcn] at h
          exact Outcome.noConfusion h
        | some cn =>
          simp only [hcn] at h
          cases hce : d.committerEmail with
          | none =>
            simp only [hce] at h
            exact Outcome.noConfusion h
          | some ce =>
            simp only [hce] at h
            cases hs : summaryOf d.message with
            | none =>
              simp only [hs] at h
              exact Outcome.noConfusion h
            | some s =>
              simp only [hs] at h
              injection h with h2
              subst h2
              exact ⟨rfl, d, rfl, han, hae, hcn, hce, hs⟩

/-- When the object of `oid` is readable, its extraction either panics with the
`unwrap` message or succeeds; it never returns an error value. -/
theorem extractOne_shape {objs : List (String × ObjData)} {oid : String}
    (hk : (lookupStr oid objs).isSome = true) :
    Git.extractOne objs oid = .panic unwrapMsg ∨ ∃ c, Git.extractOne objs oid = .ok c := by
  unfold Git.extractOne
  cases hl : lookupStr oid objs with
  | none =>
    rw [hl] at hk
    exact absurd hk (by simp)
  | some d =>
    simp only [hl]
    cases d.authorName with
    | none => exact Or.inl rfl
    | some an =>
      cases d.authorEmail with
      | none => exact Or.inl rfl
      | some ae =>
        cases d.committerName with
        | none => exact Or.inl rfl
        | some cn =>
          cases d.committerEmail with
          | none => exact Or.inl rfl
          | some ce =>
            cases summaryOf d.message with
            | none => exact Or.inl rfl
            | some s => exact Or.inr ⟨_, rfl⟩

/-- Extraction of an object with a missing identity field panics. -/
theorem extractOne_panic_of_missing {objs : List (String × ObjData)} {oid : String} {d : ObjData}
    (hl : lookupStr oid objs = some d)
    (hm : d.authorName = none ∨ d.authorEmail = none ∨
      d.committerName = none ∨ d.committerEmail = none) :
    Git.extractOne objs oid = .panic unwrapMsg := by
  unfold Git.extractOne
  simp only [hl]
  cases han : d.authorName with
  | none => rfl
  | some an =>
    cases hae : d.authorEmail with
    | none => rfl
    | some ae =>
      cases hcn : d.committerName with
      | none => rfl
      | some cn =>
        cases hce : d.committerEmail with
        | none => rfl
        | some ce =>
          exfalso
          rcases hm with h | h | h | h
          · rw [han] at h; exact Option.noConfusion h
          · rw [hae] at h; exact Option.noConfusion h
          · rw [hcn] at h; exact Option.noConfusion h
          · rw [hce] at h; exact Option.noConfusion h

/-- A successful loop over the walked oids extracts them pointwise, in order,
omitting none of them. -/
theorem extractAll_ok_pointwise (objs : List (String × ObjData)) :
    ∀ (oids : List String) (l : List Commit), Git.extractAll objs oids = .ok l →
      l.length = oids.length ∧
      ∀ (i : Nat) (hi : i < oids.length) (hl : i < l.length),
        Git.extractOne objs oids[i] = .ok l[i] := by
  intro oids
  induction oids with
  | nil =>
    intro l h
    simp only [Git.extractAll] at h
    injection h with h2
    subst h2
    refine ⟨rfl, ?_⟩
    intro i hi hl
    exact absurd hi (by simp)
  | cons oid rest ih =>
    intro l h
    simp only [Git.extractAll] at h
    cases h1 : Git.extractOne objs oid with
    | err e =>
      simp only [h1] at h
      exact Outcome.noConfusion h
    | panic m =>
      simp only [h1] at h
      exact Outcome.noConfusion h
    | ok c =>
      simp only [h1] at h
      cases h2 : Git.extractAll objs rest with
      | err e =>
        simp only [h2] at h
        exact Outcome.noConfusion h
      | panic m =>
        simp only [h2] at h
        exact Outcome.noConfusion h
      | ok cs =>
        simp only [h2] at h
        injection h with h3
        subst h3
        obtain ⟨hlen, hpt⟩ := ih cs h2
        refine ⟨by simp [hlen], ?_⟩
        intro i hi hl
        cases i with
        | zero => simpa using h1
        | succ k =>
          have hi2 : k < rest.length := by
            simp only [List.length_cons] at hi
            omega
          have hl2 : k < cs.length := by
            simp only [List.length_cons] at hl
            omega
          simp only [List.getElem_cons_succ]
          exact hpt k hi2 hl2

/-- If every walked object is readable but some walked commit has a missing
identity field, the loop panics (it neither errors nor succeeds). -/
theorem extractAll_panic (objs : List (String × ObjData)) :
    ∀ (oids : List String),
      (∀ oid ∈ oids, (lookupStr oid objs).isSome = true) →
      (∃ oid ∈ oids, ∃ d, lookupStr oid objs = some d ∧
        (d.authorName = none ∨ d.authorEmail = none ∨
         d.committerName = none ∨ d.committerEmail = none)) →
      Git.extractAll objs oids = .panic unwrapMsg := by
  intro oids
  induction oids with
  | nil =>
    intro _ hex
    rcases hex with ⟨oid, hmem, _⟩
    exact absurd hmem (List.not_mem_nil oid)
  | cons oid rest ih =>
    intro hkeys hex
    rcases hex with ⟨o2, hmem, d2, hld2, hmiss⟩
    rcases List.mem_cons.mp hmem with rfl | hmem2
    · have h1 : Git.extractOne objs o2 = .panic unwrapMsg :=
        extractOne_panic_of_missing hld2 hmiss
      simp only [Git.extractAll, h1]
    · rcases extractOne_shape (hkeys oid (List.mem_cons_self oid rest)) with h1 | ⟨c, h1⟩
      · simp only [Git.extractAll, h1]
      · simp only [Git.extractAll, h1]
        have h2 := ih (fun o ho => hkeys o (List.mem_cons_of_mem _ ho))
          ⟨o2, hmem2, d2, hld2, hmiss⟩
        simp only [h2]

/-- A successful `commits` decomposes into a found reference, a successful walk
and a successful extraction loop. -/
theorem commits_ok_decompose {g : RepoState} {branch : String} {l : List Commit}
    (h : Git.commits g branch = .ok l) :
    ∃ root oids,
      lookupStr (String.append "refs/remotes/origin/" branch) g.refs = some (some root) ∧
      revwalk g.objects root = .ok oids ∧ Git.extractAll g.objects oids = .ok l := by
  unfold Git.commits at h
  cases href : lookupStr (String.append "refs/remotes/origin/" branch) g.refs with
  | none =>
    simp only [href] at h
    exact Outcome.noConfusion h
  | some tgt =>
    simp only [href] at h
    cases tgt with
    | none => exact Outcome.noConfusion h
    | some root =>
      have h2 : (match revwalk g.objects root with
          | Except.error e => Outcome.err e
          | Except.ok oids => Git.extractAll g.objects oids) = Outcome.ok l := h
      clear h
      revert h2
      cases hw : revwalk g.objects root with
      | error e =>
        intro h2
        exact Outcome.noConfusion h2
      | ok oids =>
        intro h2
        exact ⟨root, oids, rfl, hw, h2⟩

/-- The loop bodies of `lib.rs` and `git.rs` extract identically. -/
theorem libRepo_extractOne_eq (objs : List (String × ObjData)) (oid : String) :
    LibRepo.extractOne objs oid = Git.extractOne objs oid := by
  unfold LibRepo.extractOne Git.extractOne
  cases lookupStr oid objs with
  | none => rfl
  | some d =>
    cases d.authorName with
    | none => rfl
    | some an =>
      cases d.authorEmail with
      | none => rfl
      | some ae =>
        cases d.committerName with
        | none => rfl
        | some cn =>
          cases d.committerEmail with
          | none => rfl
          | some ce =>
            cases summaryOf d.message with
            | none => rfl
            | some s => rfl

/-- The loops of `lib.rs` and `git.rs` extract identically. -/
theorem libRepo_extractAll_eq (objs : List (String × ObjData)) (oids : List String) :
    LibRepo.extractAll objs oids = Git.extractAll objs oids := by
  induction oids with
  | nil => rfl
  | cons oid rest ih =>
    simp only [LibRepo.extractAll, Git.extractAll, libRepo_extractOne_eq, ih]

theorem libRepo_url_eq (g : RepoState) : LibRepo.url g = Git.url g := by
  unfold LibRepo.url Git.url
  cases lookupStr "origin" g.remotes with
  | none => rfl
  | some o => cases o <;> rfl

theorem libRepo_commits_eq (g : RepoState) (branch : String) :
    LibRepo.commits g branch = Git.commits g branch := by
  unfold LibRepo.commits Git.commits
  cases lookupStr (String.append "refs/remotes/origin/" branch) g.refs with
  | none => rfl
  | some tgt =>
    cases tgt with
    | none => rfl
    | some root => simp [libRepo_extractAll_eq]

/-! ## Claim theorems -/

/-- **C1 (amended).** For every branch, `commits(branch)` extracts from every
visited commit the full hex object id, author identity, committer identity and
summary, and never yields a partial list: a successful result extracts every
walked oid pointwise and in order; an unreadable object aborts the walk with a
returned error value; but a missing identity field aborts the process with an
`unwrap` panic — not, as the claim states, with a returned error value. -/
theorem c1_commits_extraction (g : RepoState) (branch : String) :
    (∀ (root : String) (oids : List String) (l : List Commit),
        lookupStr (String.append "refs/remotes/origin/" branch) g.refs = some (some root) →
        revwalk g.objects root = .ok oids →
        Git.commits g branch = .ok l →
        l.length = oids.length ∧
        ∀ (i : Nat) (hi : i < oids.length) (hl : i < l.length),
          l[i].hash = oids[i] ∧
          ∃ d, lookupStr oids[i] g.objects = some d ∧
            d.authorName = some l[i].author.name ∧
            d.authorEmail = some l[i].author.email ∧
            d.committerName = some l[i].committer.name ∧
            d.committerEmail = some l[i].committer.email ∧
            summaryOf d.message = some l[i].message) ∧
    (∀ (root : String) (e : String),
        lookupStr (String.append "refs/remotes/origin/" branch) g.refs = some (some root) →
        revwalk g.objects root = .error e →
        Git.commits g branch = .err e) ∧
    (∀ (root : String) (oids : List String),
        lookupStr (String.append "refs/remotes/origin/" branch) g.refs = some (some root) →
        revwalk g.objects root = .ok oids →
        (∃ oid ∈ oids, ∃ d, lookupStr oid g.objects = some d ∧
          (d.authorName = none ∨ d.authorEmail = none ∨
           d.committerName = none ∨ d.committerEmail = none)) →
        Git.commits g branch = .panic unwrapMsg) := by
  refine ⟨?_, ?_, ?_⟩
  · intro root oids l href hwalk hcomm
    have hext : Git.extractAll g.objects oids = .ok l := by
      unfold Git.commits at hcomm
      simp only [href, hwalk] at hcomm
      exact hcomm
    obtain ⟨hlen, hpt⟩ := extractAll_ok_pointwise g.objects oids l hext
    refine ⟨hlen, ?_⟩
    intro i hi hl
    exact extractOne_ok_spec g.objects oids[i] l[i] (hpt i hi hl)
  · intro root e href hw
    unfold Git.commits
    simp only [href, hw]
  · intro root oids href hwalk hmiss
    obtain ⟨po, hrev, _, _, hkeys⟩ := revwalk_ok_props hwalk
    have hkeys2 : ∀ oid ∈ oids, (lookupStr oid g.objects).isSome = true := by
      intro oid ho
      apply hkeys
      rw [hrev] at ho
      exact List.mem_reverse.mp ho
    have hpanic := extractAll_panic g.objects oids hkeys2 hmiss
    unfold Git.commits
    simp only [href, hwalk, hpanic]

/-- **C1 (witness).** On a repository with a missing parent object the walk
returns an error; on a repository whose commit lacks the author name, the loop
panics. Both follow from `c1_commits_extraction` at concrete inputs. -/
theorem c1_commits_extraction_witness :
    Git.commits stBadObj "master" = .err "revwalk: object not found" ∧
    Git.commits stNoName "master" = .panic unwrapMsg := by
  constructor
  · exact (c1_commits_extraction stBadObj "master").2.1 "a" "revwalk: object not found"
      (by decide) (by rfl)
  · exact (c1_commits_extraction stNoName "master").2.2 "a" ["a"] (by decide) (by rfl)
      ⟨"a", by decide, { fullObj [] "msg" with authorName := none }, by decide, Or.inl rfl⟩

/-- **C1 (counterexample).** The claim states that a missing identity field
makes `commits` return an error value; on `stNoName` (author name absent) the
call panics instead, and there is no returned error value. -/
theorem c1_counterexample :
    Git.commits stNoName "master" = .panic unwrapMsg ∧
    ¬∃ e, Git.commits stNoName "master" = .err e := by
  have h : Git.commits stNoName "master" = .panic unwrapMsg := by decide
  refine ⟨h, ?_⟩
  rintro ⟨e, he⟩
  rw [h] at he
  exact Outcome.noConfusion he

/-- **C2 (amended).** `url()` reads the remote named `origin`: a missing remote
is a returned error value, but a remote with no URL set makes the call panic
(`unwrap` on `None`) rather than return an error value; with a URL present the
URL is returned. -/
theorem c2_url_characterization (g : RepoState) :
    (lookupStr "origin" g.remotes = none → Git.url g = .err "remote origin not found") ∧
    (lookupStr "origin" g.remotes = some none → Git.url g = .panic unwrapMsg) ∧
    (∀ u, lookupStr "origin" g.remotes = some (some u) → Git.url g = .ok u) := by
  refine ⟨?_, ?_, ?_⟩
  · intro h
    unfold Git.url
    simp only [h]
  · intro h
    unfold Git.url
    simp only [h]
  · intro u h
    unfold Git.url
    simp only [h]

/-- **C2 (witness).** On a repository with no `origin` remote, `url()` returns
an error value, by `c2_url_characterization` at a concrete state. -/
theorem c2_url_characterization_witness :
    Git.url stNoOrigin = .err "remote origin not found" :=
  (c2_url_characterization stNoOrigin).1 (by decide)

/-- **C2 (counterexample).** The claim states that an `origin` remote with no
URL set yields a returned error value; on `stNoUrl` the call panics instead. -/
theorem c2_counterexample :
    Git.url stNoUrl = .panic unwrapMsg ∧ ¬∃ e, Git.url stNoUrl = .err e := by
  have h : Git.url stNoUrl = .panic unwrapMsg := by decide
  refine ⟨h, ?_⟩
  rintro ⟨e, he⟩
  rw [h] at he
  exact Outcome.noConfusion he

/-- **C3.** `repository_path_url` never returns an error: `rsplit('/')` always
yields at least one (possibly empty) segment, so the derivation-error branch is
unreachable. In particular the empty string and a URL ending in `/` — which the
claim and the function's own documentation say must fail — succeed with the
empty repository name, while the positive example of the claim does hold. -/
theorem c3_repository_path_url_never_fails (c : Cache) :
    (∀ u, ∃ p, c.repository_path_url u = .ok p) ∧
    c.repository_path_url "https://example.com/org/repo" = .ok (c.repository_path "repo") ∧
    c.repository_path_url "" = .ok (c.repository_path "") ∧
    c.repository_path_url "https://example.com/org/repo/" = .ok (c.repository_path "") := by
  refine ⟨?_, rfl, rfl, rfl⟩
  intro u
  obtain ⟨n, hn⟩ := rsplitNext_isSome u
  refine ⟨c.repository_path n, ?_⟩
  unfold Cache.repository_path_url
  simp only [hn]

/-- **C4 (amended).** Every callable capability of the stub engine (`GitBin`'s
`clone` and `open`) aborts the process with a `todo!` panic rather than
returning an error value; the stub handle's capabilities (`unimplemented!`
panics) can never actually be invoked because the handle type `private::Void`
is uninhabited. -/
theorem c4_stub_engine_panics :
    (∀ u d, gitBinClone u d = .panic "not yet implemented") ∧
    (∀ p, gitBinOpen p = .panic "not yet implemented") ∧
    (∀ v, voidUrl v = .panic "not implemented") ∧
    (∀ v b, voidCommits v b = .panic "not implemented") ∧
    IsEmpty VoidRepo := by
  refine ⟨fun _ _ => rfl, fun _ => rfl, fun _ => rfl, fun _ _ => rfl, ⟨fun v => ?_⟩⟩
  cases v

/-- **C4 (counterexample).** The claim states that every capability of the stub
engine returns a "not implemented" error value; `GitBin::clone` panics instead,
and there is no returned error value to pattern-match on. -/
theorem c4_counterexample :
    gitBinClone "https://example.com/org/repo" ["dest"] = .panic "not yet implemented" ∧
    ¬∃ e, gitBinClone "https://example.com/org/repo" ["dest"] = .err e := by
  refine ⟨rfl, ?_⟩
  rintro ⟨e, he⟩
  exact Outcome.noConfusion he

/-- **C7.** When `Cache::new(P)` succeeds, `program_path()` is the OS cache
root joined with `P`, and it is always a direct child of the root returned by
`path()`. -/
theorem c7_cache_new_program_path (root : Path) (name : String) (c : Cache)
    (h : Cache.new (some root) name = .ok c) :
    c.program_path = root ++ [name] ∧ ∃ s, c.program_path = c.path ++ [s] := by
  unfold Cache.new at h
  injection h with h2
  subst h2
  exact ⟨rfl, name, rfl⟩

/-- **C7 (witness).** `c7_cache_new_program_path` applied to a concrete root
and program name. -/
theorem c7_cache_new_program_path_witness :
    Cache.new (some ["home", "user", ".cache"]) "ghet" =
      .ok { path := ["home", "user", ".cache"], program_name := "ghet" } ∧
    ({ path := ["home", "user", ".cache"], program_name := "ghet" } : Cache).program_path =
      ["home", "user", ".cache"] ++ ["ghet"] :=
  ⟨rfl, (c7_cache_new_program_path ["home", "user", ".cache"] "ghet" _ rfl).1⟩

/-- **C9.** The `Repository` capability implemented for `Git2Repository` in
`ghet/src/git.rs` and the wrapper `Repository` type in `ghet/src/lib.rs` are
behaviorally equivalent: on every repository state and branch their `url()`
and `commits(branch)` results coincide. -/
theorem c9_lib_git_equivalent :
    (∀ g, LibRepo.url g = Git.url g) ∧
    (∀ g branch, LibRepo.commits g branch = Git.commits g branch) :=
  ⟨libRepo_url_eq, libRepo_commits_eq⟩

/-- **C10.** `repositories()` fails exactly when the program directory itself
cannot be read; an individual directory entry whose read fails is silently
omitted: deleting a failed entry from the stream leaves the yielded sequence
unchanged, and a successful open always yields a plain list of paths with no
per-entry error or placeholder. -/
theorem c10_repositories_skip_failed_entries :
    (∀ e, Cache.repositories (.error e) = .error e) ∧
    (∀ entries, ∃ l, Cache.repositories (.ok entries) = .ok l) ∧
    (∀ xs ys e, Cache.repositories (.ok (xs ++ .error e :: ys)) =
      Cache.repositories (.ok (xs ++ ys))) := by
  refine ⟨fun e => rfl, fun entries => ⟨_, rfl⟩, ?_⟩
  intro xs ys e
  simp [Cache.repositories, List.filterMap_append]

/-- **C5.** Whenever `commits(branch)` succeeds, the returned sequence is in
topological order over the commit DAG: for any two returned commits where one
is a proper ancestor of the other, the descendant occupies a strictly lower
index than the ancestor. -/
theorem c5_commits_topological_order (g : RepoState) (branch : String) (l : List Commit)
    (h : Git.commits g branch = .ok l) :
    ∀ (i j : Nat) (hi : i < l.length) (hj : j < l.length),
      Ancestor g.objects l[i].hash l[j].hash → i < j := by
  obtain ⟨root, oids, href, hwalk, hext⟩ := commits_ok_decompose h
  obtain ⟨po, hrev, hnodup, hgood, hkeys⟩ := revwalk_ok_props hwalk
  obtain ⟨hlen, hpt⟩ := extractAll_ok_pointwise g.objects oids l hext
  subst hrev
  intro i j hi hj hanc
  have hlo : l.length = po.length := by simpa using hlen
  have hio : i < po.reverse.length := by simpa using by omega
  have hjo : j < po.reverse.length := by simpa using by omega
  have hip : po.length - 1 - i < po.length := by omega
  have hjp : po.length - 1 - j < po.length := by omega
  have e1 : l[i].hash = po[po.length - 1 - i] := by
    rw [(extractOne_ok_spec _ _ _ (hpt i hio hi)).1, List.getElem_reverse]
  have e2 : l[j].hash = po[po.length - 1 - j] := by
    rw [(extractOne_ok_spec _ _ _ (hpt j hjo hj)).1, List.getElem_reverse]
  have hanc2 : Ancestor g.objects po[po.length - 1 - i] l[j].hash := e1 ▸ hanc
  obtain ⟨k, hk, hki, hkv⟩ := good_ancestor hgood (po.length - 1 - i) hip _ hanc2
  have hkeqv : po[k] = po[po.length - 1 - j] := by rw [hkv, e2]
  have hkeq : k = po.length - 1 - j := (hnodup.getElem_inj_iff).mp hkeqv
  omega

/-- **C5 (witness).** On the diamond repository, `commits` returns
`[r, b, a, c]` and the theorem yields `1 < 3` for the ancestor pair
(`c` is an ancestor of `b`). -/
theorem c5_commits_topological_order_witness :
    Git.commits stDiamond "master" = .ok diamondList ∧ (1 : Nat) < 3 := by
  have hcom : Git.commits stDiamond "master" = .ok diamondList := by rfl
  have hanc : Ancestor stDiamond.objects "b" "c" :=
    Relation.TransGen.single ⟨fullObj ["c"] "right", by decide, by decide⟩
  exact ⟨hcom,
    c5_commits_topological_order stDiamond "master" diamondList hcom 1 3
      (by decide) (by decide) hanc⟩

/-- **C6.** The resolver follows the deterministic fallback chain: a reference
starting with `http://` or `https://` has its cache path derived from the URL,
is opened from the cache first and returned without any clone on success, and
otherwise is cloned exactly once, the clone's result returned as-is; any other
reference is opened directly first and, only if that fails, opened at
`cache.repository_path(reference)`, that result returned as-is. -/
theorem c6_open_repository_fallback {H : Type} (eng : Engine H) (c : Cache) (r : String) :
    ((strStarts "http://" r || strStarts "https://" r) = true →
      ∀ cachePath, c.repository_path_url r = .ok cachePath →
        ((∀ h0, eng.openRepo cachePath = .ok h0 →
            open_repository eng c r = (.ok h0, [.openCall cachePath])) ∧
         (∀ e, eng.openRepo cachePath = .error e →
            open_repository eng c r =
              (eng.cloneRepo r cachePath,
               [.openCall cachePath, .cloneCall r cachePath]) ∧
            (open_repository eng c r).2.countP
              (fun x => match x with | .cloneCall _ _ => true | _ => false) = 1))) ∧
    ((strStarts "http://" r || strStarts "https://" r) = false →
      ((∀ h0, eng.openRepo (refAsPath r) = .ok h0 →
          open_repository eng c r = (.ok h0, [.openCall (refAsPath r)])) ∧
       (∀ e, eng.openRepo (refAsPath r) = .error e →
          open_repository eng c r =
            (eng.openRepo (c.repository_path r),
             [.openCall (refAsPath r), .openCall (c.repository_path r)])))) := by
  constructor
  · intro hurl cachePath hderiv
    constructor
    · intro h0 hopen
      simp [open_repository, hurl, hderiv, hopen]
    · intro e hopen
      refine ⟨?_, ?_⟩
      · simp [open_repository, hurl, hderiv, hopen]
      · simp [open_repository, hurl, hderiv, hopen, List.countP_cons, List.countP_nil]
  · intro hurl
    constructor
    · intro h0 hopen
      simp [open_repository, hurl, hopen]
    · intro e hopen
      simp [open_repository, hurl, hopen]

/-- **C6 (witness).** Resolving a URL whose cached copy fails to open calls
`open` and then `clone` exactly once into the same derived path, returning the
clone's result. -/
theorem c6_open_repository_fallback_witness :
    open_repository engCloneOnly cacheEx "https://example.com/org/repo" =
      (.ok 7, [.openCall (cacheEx.repository_path "repo"),
               .cloneCall "https://example.com/org/repo" (cacheEx.repository_path "repo")]) := by
  have h := ((c6_open_repository_fallback engCloneOnly cacheEx
      "https://example.com/org/repo").1 (by decide)
      (cacheEx.repository_path "repo") (by rfl)).2 "open failed" (by rfl)
  exact h.1

/-- **C8.** When the program cache directory exists, `clear()` succeeds;
afterwards `repository_exists(x)` is false for every name `x` that existed
before (indeed for every name), and an immediate second `clear()` fails
because the directory is already absent. -/
theorem c8_clear_behavior (c : Cache) (fs : List Path)
    (h : existsPath fs c.program_path = true) :
    ∃ fs2, c.clear fs = .ok fs2 ∧
      (∀ x, c.repository_exists fs x = true → c.repository_exists fs2 x = false) ∧
      (∃ e, c.clear fs2 = .error e) := by
  refine ⟨fs.filter (fun q => !(isUnder c.program_path q)), ?_, ?_, ?_⟩
  · simp [Cache.clear, removeDirAll, h]
  · intro x hx
    unfold Cache.repository_exists existsPath
    rw [List.any_eq_false]
    intro q hq
    obtain ⟨hqfs, hqf⟩ := List.mem_filter.mp hq
    intro hb
    have h1 : isUnder c.program_path (c.repository_path x) = true := isUnder_append _ _
    have h2 : isUnder c.program_path q = true := isUnder_trans h1 hb
    rw [h2] at hqf
    simp at hqf
  · refine ⟨"No such file or directory", ?_⟩
    have hfalse : existsPath (fs.filter (fun q => !(isUnder c.program_path q)))
        c.program_path = false := by
      unfold existsPath
      rw [List.any_eq_false]
      intro q hq
      obtain ⟨hqfs, hqf⟩ := List.mem_filter.mp hq
      intro hb
      rw [hb] at hqf
      simp at hqf
    simp [Cache.clear, removeDirAll, hfalse]

/-- **C8 (witness).** `c8_clear_behavior` applied to a concrete cache and
filesystem holding two cached repositories. -/
theorem c8_clear_behavior_witness :
    existsPath fsEx cacheEx.program_path = true ∧
    ∃ fs2, cacheEx.clear fsEx = .ok fs2 ∧
      (∀ x, cacheEx.repository_exists fsEx x = true →
        cacheEx.repository_exists fs2 x = false) ∧
      (∃ e, cacheEx.clear fs2 = .error e) :=
  ⟨by decide, c8_clear_behavior cacheEx fsEx (by decide)⟩

end Ghet
